import Mathlib

/-!
Shallow embedding of `src/src/asynchronous/embassy/mod.rs` from the
`tps6699x` driver crate: the controller's shared state, the interrupt
mask and its RAII guard, the event-signal wait loop, the command
execution protocol, and interrupt processing.

Modelling conventions:
* Rust arrays `[T; MAX_SUPPORTED_PORTS]` are Lean `List`s whose length
  is `MAX_SUPPORTED_PORTS` (kept as a hypothesis where it matters).
* The embassy `Signal` (single-slot, last-write-wins mailbox) is
  modelled by a `pending : Option Snapshot` slot together with the
  ordered list `stream : List Snapshot` of snapshots that will be
  published after the call under consideration starts; a `wait()` that
  never fires is modelled by `Option.none` results.
* `async` functions with interleaving are modelled by explicit traces
  of events (lock acquire/release, command send, snapshot observation,
  result read) so that ordering claims become statements about lists.
* Machine integers (`u8` port ids, `usize` counts) are `Nat`; no claim
  exercises overflow (port indices are below `MAX_SUPPORTED_PORTS`).
-/

namespace Tps6699x

/-- Fixed maximum number of ports across supported chip variants.
The crate root (outside `src/`) defines it; its value 2 is forced by
`Controller::new_tps66993`, which passes the two-element array
`[addr, 0]` where a `[u8; MAX_SUPPORTED_PORTS]` is expected. -/
def MAX_SUPPORTED_PORTS : Nat := 2

/-- Modelled from the spec: the per-port interrupt event bitset
(`registers::field_sets::IntEventBus1`), an opaque register field set
whose bit-level layout is out of scope.  We keep the raw bits as a
`Nat` bitfield. -/
structure IntEventBus1 where
  bits : Nat
deriving DecidableEq, Repr

/-- Modelled from the spec: the all-zero (empty) event bitset
(`IntEventBus1::new_zero`). -/
def IntEventBus1.new_zero : IntEventBus1 := ⟨0⟩

/-- Modelled from the spec: the "command 1 completed" bit test used by
the command-completion predicate.  The concrete bit position is opaque
to the core; we fix bit 0, which no claim depends on. -/
def IntEventBus1.cmd_1_completed (e : IntEventBus1) : Bool := e.bits.testBit 0

/-- Protocol errors raised by the core itself
(`embedded_usb_pd::PdError`, restricted to the variants this module
uses). -/
inductive PdError where
  | invalidPort
  | timeout
  | failed
deriving DecidableEq, Repr

/-- Embeds `embedded_usb_pd::Error<T>`: either a transport/bus error carried
bit-for-bit from the bus layer, or a protocol error from the core. -/
inductive Error (ε : Type) where
  | bus (e : ε)
  | pd (e : PdError)
deriving DecidableEq, Repr

/-- A per-port interrupt event snapshot: one `IntEventBus1` per port
slot, `MAX_SUPPORTED_PORTS` slots in total. -/
abbrev Snapshot := List IntEventBus1

/-- The all-zero snapshot `[IntEventBus1::new_zero(); MAX_SUPPORTED_PORTS]`. -/
def zeroSnapshot : Snapshot := List.replicate MAX_SUPPORTED_PORTS IntEventBus1.new_zero

/-! ## Interrupt mask (`Controller::enable_interrupts` / `interrupts_enabled`) -/

/-- The elementwise copy underlying both mask operations:
`for (src, dst) in zip(src.iter(), dst.iter()) { dst.store(src) }`
copies `src[i]` into `dst[i]` for `i` below the shorter length and
leaves the rest of `dst` unchanged.  First argument: destination
(old contents); second: source. -/
def zipStore : List Bool → List Bool → List Bool
  | _ :: dst, m :: ms => m :: zipStore dst ms
  | dst, [] => dst
  | [], _ :: _ => []

/-- Embeds `Controller::enable_interrupts(enabled)`: stores `enabled[i]` into
the atomic mask slot `i`, per slot, for every slot both arrays have. -/
def enable_interrupts (state enabled : List Bool) : List Bool :=
  zipStore state enabled

/-- Embeds `Controller::interrupts_enabled()`: loads every mask slot into a
fresh `[false; MAX_SUPPORTED_PORTS]` array. -/
def interrupts_enabled (state : List Bool) : List Bool :=
  zipStore (List.replicate MAX_SUPPORTED_PORTS false) state

theorem zipStore_eq_of_length_eq : ∀ {dst src : List Bool}, dst.length = src.length →
    zipStore dst src = src
  | [], [], _ => rfl
  | _ :: dst, s :: src, h => by
      simp only [zipStore]
      exact congrArg (s :: ·) (zipStore_eq_of_length_eq (by simpa using h))

theorem zipStore_length : ∀ (dst src : List Bool), (zipStore dst src).length = dst.length
  | [], [] => rfl
  | [], _ :: _ => rfl
  | _ :: _, [] => rfl
  | _ :: dst, _ :: src => by simp [zipStore, zipStore_length dst src]

theorem interrupts_enabled_eq {state : List Bool} (h : state.length = MAX_SUPPORTED_PORTS) :
    interrupts_enabled state = state := by
  unfold interrupts_enabled
  exact zipStore_eq_of_length_eq (by simp [h])

theorem enable_interrupts_eq {state enabled : List Bool}
    (hs : state.length = MAX_SUPPORTED_PORTS) (he : enabled.length = MAX_SUPPORTED_PORTS) :
    enable_interrupts state enabled = enabled := by
  unfold enable_interrupts
  exact zipStore_eq_of_length_eq (hs.trans he.symm)

/-! ## Interrupt guard (`InterruptGuard::new` / `Drop for InterruptGuard`) -/

/-- Embeds `InterruptGuard`: holds the mask observed before the guard
installed its own mask (`target_state`); the controller reference is
implicit (the mask state is threaded explicitly). -/
structure InterruptGuard where
  target_state : List Bool
deriving DecidableEq, Repr

namespace InterruptGuard

/-- Embeds `InterruptGuard::new(controller, enabled)`: captures the current
mask via `interrupts_enabled()`, then installs `enabled` via
`enable_interrupts`.  Returns the guard and the new mask state. -/
def new (state : List Bool) (enabled : List Bool) : InterruptGuard × List Bool :=
  let target_state := interrupts_enabled state
  (⟨target_state⟩, enable_interrupts state enabled)

/-- Embeds `Drop for InterruptGuard`: reinstalls the captured mask.  Rust runs
this on every exit path of the guard's scope; the model exposes it as
an explicit state transformer. -/
def drop (g : InterruptGuard) (state : List Bool) : List Bool :=
  enable_interrupts state g.target_state

end InterruptGuard

/-- Embeds `Tps6699x::enable_interrupts_guarded(enabled)`: constructs a guard
installing `enabled`. -/
def enable_interrupts_guarded (state enabled : List Bool) : InterruptGuard × List Bool :=
  InterruptGuard.new state enabled

/-- Embeds `Tps6699x::enable_interrupt_guarded(port, enabled)`: fails with
`PdError::InvalidPort` when `port ≥ num_ports`; otherwise reads the
current full mask, overwrites only the entry for `port` with `enabled`, and
installs the result through a guard. -/
def enable_interrupt_guarded (ε : Type) (num_ports : Nat) (state : List Bool)
    (port : Nat) (enabled : Bool) : Except (Error ε) (InterruptGuard × List Bool) :=
  if num_ports ≤ port then
    .error (.pd .invalidPort)
  else
    let st := interrupts_enabled state
    let st := st.set port enabled
    .ok (enable_interrupts_guarded state st)

/-- Embeds `Tps6699x::disable_all_interrupts_guarded()`: guard installing the
all-false mask. -/
def disable_all_interrupts_guarded (state : List Bool) : InterruptGuard × List Bool :=
  enable_interrupts_guarded state (List.replicate MAX_SUPPORTED_PORTS false)

/-! ## Controller construction (`controller::Controller::new`) -/

/-- The observable state `Controller::new` produces: the interrupt mask
and the configured port count.  The device behind the mutex and the
empty signal are opaque collaborators and carry no observable state at
construction time. -/
structure ControllerState where
  interrupts_enabled : List Bool
  num_ports : Nat
deriving DecidableEq, Repr

/-- Embeds `Controller::new(bus, addr, num_ports)`: wraps the (infallible)
internal device constructor, an empty signal, the all-true interrupt
mask `[const AtomicBool::new(true); MAX_SUPPORTED_PORTS]`, and the
caller's `num_ports`, and returns `Ok` unconditionally. -/
def Controller.new (ε : Type) (num_ports : Nat) : Except (Error ε) ControllerState :=
  .ok { interrupts_enabled := List.replicate MAX_SUPPORTED_PORTS true
        num_ports := num_ports }

/-! ## Event signal and `Tps6699x::wait_interrupt`

The embassy `Signal` holds at most one pending snapshot.  `reset()`
clears the slot; `wait()` consumes the pending snapshot if one is set,
otherwise suspends until the next `signal(...)`.  We model a run by the
snapshot pending at call time (`pending`) and the ordered list of
snapshots signalled afterwards (`stream`); a wait that outlives the
stream never returns (`Option.none`). -/

/-- The inner `for (port, flag) in flags.iter().enumerate()` loop of
`wait_interrupt`: does `f` hold of some slot of the snapshot? -/
def snapshotMatches (f : Nat → IntEventBus1 → Bool) (s : Snapshot) : Bool :=
  s.enum.any fun pf => f pf.1 pf.2

/-- The `loop { let flags = wait().await; ... }` of `wait_interrupt`:
return the first available snapshot some slot of which satisfies `f`. -/
def waitLoop (f : Nat → IntEventBus1 → Bool) : List Snapshot → Option Snapshot
  | [] => none
  | s :: rest => if snapshotMatches f s then some s else waitLoop f rest

/-- The snapshots the wait loop actually observes: every non-matching
snapshot it skips, plus the matching one it returns (when one exists). -/
def waitObserved (f : Nat → IntEventBus1 → Bool) : List Snapshot → List Snapshot
  | [] => []
  | s :: rest => if snapshotMatches f s then [s] else s :: waitObserved f rest

/-- Embeds `Tps6699x::wait_interrupt(clear_current, f)`: optionally reset the
signal (discarding the pending snapshot), then loop on `wait()` until a
snapshot has a slot satisfying `f`. -/
def wait_interrupt (clear_current : Bool) (f : Nat → IntEventBus1 → Bool)
    (pending : Option Snapshot) (stream : List Snapshot) : Option Snapshot :=
  waitLoop f ((if clear_current then [] else pending.toList) ++ stream)

theorem waitLoop_eq_find? (f : Nat → IntEventBus1 → Bool) :
    ∀ l : List Snapshot, waitLoop f l = l.find? (snapshotMatches f)
  | [] => rfl
  | s :: rest => by
      by_cases h : snapshotMatches f s = true
      · simp [waitLoop, List.find?, h]
      · simp only [Bool.not_eq_true] at h
        simp [waitLoop, List.find?, h, waitLoop_eq_find? f rest]

theorem waitLoop_mem {f : Nat → IntEventBus1 → Bool} {l : List Snapshot} {s : Snapshot}
    (h : waitLoop f l = some s) : s ∈ l := by
  rw [waitLoop_eq_find?] at h
  exact List.mem_of_find?_eq_some h

theorem waitLoop_matches {f : Nat → IntEventBus1 → Bool} {l : List Snapshot} {s : Snapshot}
    (h : waitLoop f l = some s) : snapshotMatches f s = true := by
  rw [waitLoop_eq_find?] at h
  exact List.find?_some h

/-! ## Command execution (`Tps6699x::execute_command_no_timeout`) -/

/-- An opaque command return value (`ReturnValue`), external to the
core: a status code read back from the device. -/
structure ReturnValue where
  code : Nat
deriving DecidableEq, Repr

/-- Events of a command-execution run, in program order. -/
inductive Ev where
  | lockAcquire
  | lockRelease
  | sendCommand (port : Nat)
  | signalReset
  | observe (s : Snapshot)
  | readCmdResult (port : Nat)
deriving DecidableEq, Repr

/-- The completion predicate `execute_command_no_timeout` passes to
`wait_interrupt`: `|p, flags| p == port && flags.cmd_1_completed()`. -/
def cmdCompletedPred (port : Nat) : Nat → IntEventBus1 → Bool :=
  fun p flags => (p == port) && flags.cmd_1_completed

/-- Embeds `Tps6699x::execute_command_no_timeout(port, cmd, indata, outdata)`.
Environment parameters: `sendRes` is the device's answer to
`send_command` (phase 1), `readRes` its answer to `read_command_result`
(phase 3), `pending`/`stream` the signal state as in `wait_interrupt`.
Returns the event trace together with the outcome; `none` is a run
stuck forever in the phase-2 wait. -/
def execute_command_no_timeout (ε : Type) (port : Nat)
    (sendRes : Except (Error ε) Unit) (readRes : Except (Error ε) ReturnValue)
    (pending : Option Snapshot) (stream : List Snapshot) :
    List Ev × Option (Except (Error ε) ReturnValue) :=
  match sendRes with
  | .error e => ([.lockAcquire, .sendCommand port, .lockRelease], some (.error e))
  | .ok _ =>
    let obs := (waitObserved (cmdCompletedPred port) stream).map Ev.observe
    match wait_interrupt true (cmdCompletedPred port) pending stream with
    | none =>
      ([.lockAcquire, .sendCommand port, .lockRelease, .signalReset] ++ obs, none)
    | some _ =>
      ([.lockAcquire, .sendCommand port, .lockRelease, .signalReset] ++ obs
         ++ [.lockAcquire, .readCmdResult port, .lockRelease],
       some readRes)

/-- Embeds `Tps6699x::execute_command(port, cmd, timeout_ms, indata, outdata)`:
`with_timeout` around `execute_command_no_timeout`.  `inner = none`
models the deadline expiring before the inner future completes;
`inner = some r` models the inner call finishing with `r` in time. -/
def execute_command (ε : Type) (inner : Option (Except (Error ε) ReturnValue)) :
    Except (Error ε) ReturnValue :=
  match inner with
  | none => .error (.pd .timeout)
  | some r => r

/-! ## Interrupt processing (`Interrupt::process_interrupt`) -/

/-- The `for port in 0..inner.num_ports()` loop body of
`process_interrupt`, threaded over the remaining port list.  `enabled`
is the mask captured by `interrupts_enabled()` before the loop; `pin k`
is the result of the `k`-th `int.is_high()` call; `clear p` the device
answer to `clear_interrupt(p)`.  State: accumulated `flags`, number of
pin samples consumed, ports cleared so far (in order).  Result: the
error that aborted the loop, if any, plus the state reached. -/
def procLoop (ε : Type) (enabled : List Bool) (pin : Nat → Except Unit Bool)
    (clear : Nat → Except (Error ε) IntEventBus1) :
    List Nat → Snapshot → Nat → List Nat →
    Option (Error ε) × Snapshot × Nat × List Nat
  | [], flags, pinIdx, cleared => (none, flags, pinIdx, cleared)
  | port :: rest, flags, pinIdx, cleared =>
    if enabled.getD port false = false then
      procLoop ε enabled pin clear rest flags pinIdx cleared
    else
      match pin pinIdx with
      | .error _ => (some (.pd .failed), flags, pinIdx + 1, cleared)
      | .ok true => procLoop ε enabled pin clear rest flags (pinIdx + 1) cleared
      | .ok false =>
        match clear port with
        | .error e => (some e, flags, pinIdx + 1, cleared)
        | .ok v =>
          procLoop ε enabled pin clear rest (flags.set port v) (pinIdx + 1) (cleared ++ [port])

/-- Observable outcome of one `process_interrupt` call. -/
structure ProcessOutcome (ε : Type) where
  result : Except (Error ε) Snapshot
  published : Option Snapshot
  pinReads : Nat
  clearedPorts : List Nat

/-- Embeds `Interrupt::process_interrupt(int)`: start from the all-zero
snapshot, read the mask once, run the port loop under the device lock,
and — only when the loop did not return early with an error — signal
the accumulated snapshot and return it. -/
def process_interrupt (ε : Type) (num_ports : Nat) (enabled : List Bool)
    (pin : Nat → Except Unit Bool) (clear : Nat → Except (Error ε) IntEventBus1) :
    ProcessOutcome ε :=
  match procLoop ε enabled pin clear (List.range num_ports) zeroSnapshot 0 [] with
  | (some e, _, pinIdx, cleared) =>
    { result := .error e, published := none, pinReads := pinIdx, clearedPorts := cleared }
  | (none, flags, pinIdx, cleared) =>
    { result := .ok flags, published := some flags, pinReads := pinIdx, clearedPorts := cleared }

/-! ## Small list helpers -/

theorem getD_set_self {α : Type} (l : List α) (i : Nat) (v d : α) (h : i < l.length) :
    (l.set i v).getD i d = v := by
  rw [List.getD_eq_getElem?_getD, List.getElem?_set_self h]
  rfl

theorem getD_set_ne {α : Type} (l : List α) {i j : Nat} (v d : α) (h : i ≠ j) :
    (l.set i v).getD j d = l.getD j d := by
  rw [List.getD_eq_getElem?_getD, List.getElem?_set_ne h, ← List.getD_eq_getElem?_getD]

theorem zeroSnapshot_getD (p : Nat) :
    zeroSnapshot.getD p IntEventBus1.new_zero = IntEventBus1.new_zero := by
  rw [zeroSnapshot, List.getD_eq_getElem?_getD, List.getElem?_replicate]
  by_cases h : p < MAX_SUPPORTED_PORTS <;> simp [h]

/-! ## Claims about the interrupt mask and guard -/

/-- C4: constructing an `InterruptGuard` with requested mask `M` over
current mask `S` captures `S`, installs `M` (so reading the mask right
after construction returns `M`), and dropping the guard from any later
mask state reinstalls exactly the captured `S`, never a hard-coded
default. -/
theorem C4_guard_captures_installs_restores (M S st : List Bool)
    (hM : M.length = MAX_SUPPORTED_PORTS) (hS : S.length = MAX_SUPPORTED_PORTS)
    (hst : st.length = MAX_SUPPORTED_PORTS) :
    (InterruptGuard.new S M).1.target_state = S ∧
    (InterruptGuard.new S M).2 = M ∧
    interrupts_enabled (InterruptGuard.new S M).2 = M ∧
    InterruptGuard.drop (InterruptGuard.new S M).1 st = S := by
  have hcap : (InterruptGuard.new S M).1.target_state = S := by
    simp [InterruptGuard.new, interrupts_enabled_eq hS]
  have hins : (InterruptGuard.new S M).2 = M := by
    simp [InterruptGuard.new, enable_interrupts_eq hS hM]
  refine ⟨hcap, hins, ?_, ?_⟩
  · rw [hins, interrupts_enabled_eq hM]
  · rw [InterruptGuard.drop, hcap, enable_interrupts_eq hst hS]

theorem C4_guard_captures_installs_restores_witness :
    [true, false].length = MAX_SUPPORTED_PORTS ∧
    ((InterruptGuard.new [true, true] [true, false]).1.target_state = [true, true] ∧
     (InterruptGuard.new [true, true] [true, false]).2 = [true, false] ∧
     interrupts_enabled (InterruptGuard.new [true, true] [true, false]).2 = [true, false] ∧
     InterruptGuard.drop (InterruptGuard.new [true, true] [true, false]).1 [false, false]
       = [true, true]) :=
  ⟨by decide,
   C4_guard_captures_installs_restores [true, false] [true, true] [false, false]
     (by decide) (by decide) (by decide)⟩

/-- C5: `enable_interrupt_guarded(port, enabled)` fails with the
invalid-port error exactly when `port ≥ num_ports`; for `port <
num_ports` (with the data-model invariant `num_ports ≤
MAX_SUPPORTED_PORTS` and a well-formed mask) it succeeds, the guard
captures the pre-call mask, the installed mask agrees with the
requested value at `port` and with the pre-call mask everywhere else. -/
theorem C5_enable_interrupt_guarded_spec (ε : Type) (num_ports port : Nat)
    (st : List Bool) (enabled : Bool) :
    (num_ports ≤ port ↔
      enable_interrupt_guarded ε num_ports st port enabled = .error (.pd .invalidPort)) ∧
    (port < num_ports → num_ports ≤ MAX_SUPPORTED_PORTS →
      st.length = MAX_SUPPORTED_PORTS →
      enable_interrupt_guarded ε num_ports st port enabled
          = .ok (⟨st⟩, st.set port enabled) ∧
        (st.set port enabled).getD port false = enabled ∧
        ∀ q, q ≠ port → (st.set port enabled).getD q false = st.getD q false) := by
  constructor
  · constructor
    · intro h
      simp [enable_interrupt_guarded, h]
    · intro h
      by_contra hlt
      push_neg at hlt
      simp [enable_interrupt_guarded, Nat.not_le.mpr hlt] at h
  · intro hlt hmax hlen
    have hnot : ¬ num_ports ≤ port := Nat.not_le.mpr hlt
    refine ⟨?_, ?_, ?_⟩
    · simp [enable_interrupt_guarded, hnot, enable_interrupts_guarded, InterruptGuard.new,
        interrupts_enabled_eq hlen]
      exact enable_interrupts_eq hlen (by simp [hlen])
    · exact getD_set_self st port enabled false (by omega)
    · intro q hq
      exact getD_set_ne st enabled false (fun h => hq h.symm)

theorem C5_enable_interrupt_guarded_spec_witness :
    ((2 ≤ 3 ↔ enable_interrupt_guarded Unit 2 [true, true] 3 false
        = .error (.pd .invalidPort)) ∧ True) ∧
    (enable_interrupt_guarded Unit 2 [true, true] 1 false
        = .ok (⟨[true, true]⟩, [true, false]) ∧
      ([true, true].set 1 false).getD 1 false = false ∧
      ([true, true].set 1 false).getD 0 false = [true, true].getD 0 false) := by
  have h1 := C5_enable_interrupt_guarded_spec Unit 2 3 [true, true] false
  have h2 := (C5_enable_interrupt_guarded_spec Unit 2 1 [true, true] false).2
    (by decide) (by decide) (by decide)
  exact ⟨⟨h1.1, trivial⟩, h2.1, h2.2.1, h2.2.2 0 (by decide)⟩

/-- C6: when the deadline expires before the inner call completes,
`execute_command` returns the protocol timeout error, which no bus
error equals; when the inner call completes in time its result is
passed through unchanged (no retry, no rewriting). -/
theorem C6_execute_command_timeout (ε : Type) :
    execute_command ε none = .error (.pd .timeout) ∧
    (∀ r : Except (Error ε) ReturnValue, execute_command ε (some r) = r) ∧
    (∀ e : ε, (Error.pd .timeout : Error ε) ≠ .bus e) := by
  refine ⟨rfl, fun r => rfl, fun e h => ?_⟩
  exact Error.noConfusion h

theorem C6_execute_command_timeout_witness :
    execute_command Unit none = .error (.pd .timeout) ∧
    execute_command Unit (some (.ok ⟨7⟩)) = .ok ⟨7⟩ ∧
    (Error.pd .timeout : Error Unit) ≠ .bus () :=
  ⟨(C6_execute_command_timeout Unit).1,
   (C6_execute_command_timeout Unit).2.1 (.ok ⟨7⟩),
   (C6_execute_command_timeout Unit).2.2 ()⟩

/-- C9: `Controller::new` performs no validation of the port count and
never fails (the underlying device constructor is infallible, so the
only possible failure source never fires); the controller it produces
records the requested `num_ports` and has every interrupt-mask slot
enabled. -/
theorem C9_controller_new (ε : Type) (num_ports : Nat) :
    ∃ c : ControllerState, Controller.new ε num_ports = .ok c ∧
      c.num_ports = num_ports ∧
      c.interrupts_enabled = List.replicate MAX_SUPPORTED_PORTS true ∧
      ∀ p, p < MAX_SUPPORTED_PORTS → c.interrupts_enabled.getD p false = true := by
  refine ⟨_, rfl, rfl, rfl, ?_⟩
  intro p hp
  rw [List.getD_eq_getElem?_getD, List.getElem?_replicate]
  simp [hp]

theorem C9_controller_new_witness :
    Controller.new Unit 3 = .ok ⟨List.replicate MAX_SUPPORTED_PORTS true, 3⟩ ∧
    (List.replicate MAX_SUPPORTED_PORTS true).getD 0 false = true := by
  obtain ⟨c, hok, hn, hm, hall⟩ := C9_controller_new Unit 3
  constructor
  · rw [hok]
    cases c
    simp only at hn hm
    rw [hn, hm]
  · have := hall 0 (by decide)
    rw [hm] at this
    exact this

/-! ## Claims about `wait_interrupt` -/

/-- C7: resetting first means the wait can only return a snapshot from
the post-call stream; without the reset an already-pending matching
snapshot is returned; in both modes the result is the first available
(pending, then published-in-order) snapshot some slot of which
satisfies the predicate. -/
theorem C7_wait_interrupt_reset_semantics (f : Nat → IntEventBus1 → Bool)
    (pending : Option Snapshot) (stream : List Snapshot) :
    (∀ s, wait_interrupt true f pending stream = some s → s ∈ stream) ∧
    (∀ s, pending = some s → snapshotMatches f s = true →
      wait_interrupt false f pending stream = some s) ∧
    (∀ c, wait_interrupt c f pending stream
        = ((if c then [] else pending.toList) ++ stream).find? (snapshotMatches f)) := by
  refine ⟨?_, ?_, ?_⟩
  · intro s h
    simp only [wait_interrupt, if_pos rfl, List.nil_append] at h
    exact waitLoop_mem h
  · intro s hp hm
    simp [wait_interrupt, hp, waitLoop, hm]
  · intro c
    simp only [wait_interrupt, waitLoop_eq_find?]

theorem C7_wait_interrupt_reset_semantics_witness :
    (([⟨0⟩, ⟨1⟩] : Snapshot) ∈ ([[⟨0⟩, ⟨1⟩]] : List Snapshot)) ∧
    wait_interrupt false (fun _ e => e.cmd_1_completed) (some [⟨1⟩, ⟨0⟩]) [[⟨0⟩, ⟨1⟩]]
      = some [⟨1⟩, ⟨0⟩] ∧
    wait_interrupt true (fun _ e => e.cmd_1_completed) (some [⟨1⟩, ⟨0⟩]) [[⟨0⟩, ⟨1⟩]]
      = ((if true then ([] : List Snapshot) else (some ([⟨1⟩, ⟨0⟩] : Snapshot)).toList)
            ++ ([[⟨0⟩, ⟨1⟩]] : List Snapshot)).find?
          (snapshotMatches fun _ e => e.cmd_1_completed) := by
  have h := C7_wait_interrupt_reset_semantics (fun _ e => e.cmd_1_completed)
    (some [⟨1⟩, ⟨0⟩]) [[⟨0⟩, ⟨1⟩]]
  exact ⟨h.1 [⟨0⟩, ⟨1⟩] (by decide), h.2.1 [⟨1⟩, ⟨0⟩] rfl (by decide), h.2.2 true⟩

theorem snapshotMatches_iff (f : Nat → IntEventBus1 → Bool) (s : Snapshot) :
    snapshotMatches f s = true ↔
      ∃ p, p < s.length ∧ f p (s.getD p IntEventBus1.new_zero) = true := by
  unfold snapshotMatches
  rw [List.any_eq_true]
  constructor
  · rintro ⟨⟨p, v⟩, hmem, hf⟩
    rw [List.mem_enum_iff_getElem?] at hmem
    obtain ⟨hlt, hget⟩ := List.getElem?_eq_some.mp hmem
    refine ⟨p, hlt, ?_⟩
    rw [List.getD_eq_getElem?_getD, List.getElem?_eq_getElem hlt, hget]
    exact hf
  · rintro ⟨p, hlt, hf⟩
    refine ⟨(p, s.getD p IntEventBus1.new_zero), ?_, hf⟩
    rw [List.mem_enum_iff_getElem?]
    simp only [List.getD_eq_getElem?_getD, List.getElem?_eq_getElem hlt, Option.getD_some]

/-- C10: the inner loop of `wait_interrupt` tests the predicate on
every slot of the fixed-width snapshot — including slots at or beyond
`num_ports` — so a snapshot matches exactly when the predicate holds of
some slot index below `MAX_SUPPORTED_PORTS`, and any matching snapshot
at the head of the published stream is returned whole. -/
theorem C10_wait_interrupt_scans_all_slots (f : Nat → IntEventBus1 → Bool) (s : Snapshot)
    (hl : s.length = MAX_SUPPORTED_PORTS) :
    (snapshotMatches f s = true ↔
      ∃ p, p < MAX_SUPPORTED_PORTS ∧ f p (s.getD p IntEventBus1.new_zero) = true) ∧
    (snapshotMatches f s = true → ∀ (c : Bool) (rest : List Snapshot),
      wait_interrupt c f none (s :: rest) = some s) := by
  constructor
  · rw [snapshotMatches_iff, hl]
  · intro hm c rest
    cases c <;> simp [wait_interrupt, waitLoop, hm]

theorem C10_wait_interrupt_scans_all_slots_witness :
    (snapshotMatches (fun p _ => p == 1) [⟨0⟩, ⟨0⟩] = true ↔
      ∃ p, p < MAX_SUPPORTED_PORTS ∧
        (p == 1) = true) ∧
    wait_interrupt true (fun p _ => p == 1) none [[⟨0⟩, ⟨0⟩]] = some [⟨0⟩, ⟨0⟩] := by
  have h := C10_wait_interrupt_scans_all_slots (fun p _ => p == 1) [⟨0⟩, ⟨0⟩] (by decide)
  exact ⟨h.1, h.2 (by decide) true [[⟨0⟩, ⟨0⟩]]⟩

/-! ## Properties of the `process_interrupt` port loop -/

theorem procLoop_all_disabled (ε : Type) (enabled : List Bool) (pin : Nat → Except Unit Bool)
    (clear : Nat → Except (Error ε) IntEventBus1) :
    ∀ (L : List Nat) (flags : Snapshot) (i : Nat) (cl : List Nat),
      (∀ p ∈ L, enabled.getD p false = false) →
      procLoop ε enabled pin clear L flags i cl = (none, flags, i, cl)
  | [], _, _, _, _ => rfl
  | port :: rest, flags, i, cl, h => by
      have hp : enabled.getD port false = false := h port (List.mem_cons_self _ _)
      simp only [procLoop, if_pos hp]
      exact procLoop_all_disabled ε enabled pin clear rest flags i cl
        (fun p hp' => h p (List.mem_cons_of_mem _ hp'))

theorem procLoop_getD_preserved (ε : Type) (enabled : List Bool) (pin : Nat → Except Unit Bool)
    (clear : Nat → Except (Error ε) IntEventBus1) (p : Nat) (d : IntEventBus1) :
    ∀ (L : List Nat) (flags : Snapshot) (i : Nat) (cl : List Nat),
      (p ∉ L ∨ enabled.getD p false = false) →
      ((procLoop ε enabled pin clear L flags i cl).2.1).getD p d = flags.getD p d
  | [], _, _, _, _ => rfl
  | port :: rest, flags, i, cl, h => by
      have hrest : p ∉ rest ∨ enabled.getD p false = false := by
        rcases h with h | h
        · exact Or.inl fun hm => h (List.mem_cons_of_mem _ hm)
        · exact Or.inr h
      by_cases hp : enabled.getD port false = false
      · simp only [procLoop, if_pos hp]
        exact procLoop_getD_preserved ε enabled pin clear p d rest flags i cl hrest
      · have hne : port ≠ p := by
          rintro rfl
          rcases h with h | h
          · exact h (List.mem_cons_self _ _)
          · exact hp h
        simp only [procLoop, if_neg hp]
        cases hpin : pin i with
        | error e => rfl
        | ok b =>
          cases b with
          | true => exact procLoop_getD_preserved ε enabled pin clear p d rest flags (i+1) cl hrest
          | false =>
            cases hclear : clear port with
            | error e => rfl
            | ok v =>
              rw [procLoop_getD_preserved ε enabled pin clear p d rest _ (i+1) _ hrest]
              exact getD_set_ne flags v d hne

theorem procLoop_flags_length (ε : Type) (enabled : List Bool) (pin : Nat → Except Unit Bool)
    (clear : Nat → Except (Error ε) IntEventBus1) :
    ∀ (L : List Nat) (flags : Snapshot) (i : Nat) (cl : List Nat),
      ((procLoop ε enabled pin clear L flags i cl).2.1).length = flags.length
  | [], _, _, _ => rfl
  | port :: rest, flags, i, cl => by
      by_cases hp : enabled.getD port false = false
      · simp only [procLoop, if_pos hp]
        exact procLoop_flags_length ε enabled pin clear rest flags i cl
      · simp only [procLoop, if_neg hp]
        cases hpin : pin i with
        | error e => rfl
        | ok b =>
          cases b with
          | true => exact procLoop_flags_length ε enabled pin clear rest flags (i+1) cl
          | false =>
            cases hclear : clear port with
            | error e => rfl
            | ok v =>
              rw [procLoop_flags_length ε enabled pin clear rest _ (i+1) _]
              exact List.length_set flags port v

theorem procLoop_cleared_mono (ε : Type) (enabled : List Bool) (pin : Nat → Except Unit Bool)
    (clear : Nat → Except (Error ε) IntEventBus1) (p : Nat) :
    ∀ (L : List Nat) (flags : Snapshot) (i : Nat) (cl : List Nat),
      p ∈ cl → p ∈ (procLoop ε enabled pin clear L flags i cl).2.2.2
  | [], _, _, _, h => h
  | port :: rest, flags, i, cl, h => by
      by_cases hp : enabled.getD port false = false
      · simp only [procLoop, if_pos hp]
        exact procLoop_cleared_mono ε enabled pin clear p rest flags i cl h
      · simp only [procLoop, if_neg hp]
        cases hpin : pin i with
        | error e => exact h
        | ok b =>
          cases b with
          | true => exact procLoop_cleared_mono ε enabled pin clear p rest flags (i+1) cl h
          | false =>
            cases hclear : clear port with
            | error e => exact h
            | ok v =>
              exact procLoop_cleared_mono ε enabled pin clear p rest _ (i+1) _
                (List.mem_append_left _ h)

theorem procLoop_cleared_subset (ε : Type) (enabled : List Bool) (pin : Nat → Except Unit Bool)
    (clear : Nat → Except (Error ε) IntEventBus1) (p : Nat) :
    ∀ (L : List Nat) (flags : Snapshot) (i : Nat) (cl : List Nat),
      p ∈ (procLoop ε enabled pin clear L flags i cl).2.2.2 →
      p ∈ cl ∨ (p ∈ L ∧ enabled.getD p false = true)
  | [], _, _, _, h => Or.inl h
  | port :: rest, flags, i, cl, h => by
      by_cases hp : enabled.getD port false = false
      · simp only [procLoop, if_pos hp] at h
        rcases procLoop_cleared_subset ε enabled pin clear p rest flags i cl h with h' | ⟨hm, he⟩
        · exact Or.inl h'
        · exact Or.inr ⟨List.mem_cons_of_mem _ hm, he⟩
      · simp only [procLoop, if_neg hp] at h
        rw [Bool.not_eq_false] at hp
        cases hpin : pin i with
        | error e =>
          rw [hpin] at h
          exact Or.inl h
        | ok b =>
          cases b with
          | true =>
            rw [hpin] at h
            rcases procLoop_cleared_subset ε enabled pin clear p rest flags (i+1) cl h
              with h' | ⟨hm, he⟩
            · exact Or.inl h'
            · exact Or.inr ⟨List.mem_cons_of_mem _ hm, he⟩
          | false =>
            rw [hpin] at h
            cases hclear : clear port with
            | error e =>
              rw [hclear] at h
              exact Or.inl h
            | ok v =>
              rw [hclear] at h
              rcases procLoop_cleared_subset ε enabled pin clear p rest _ (i+1) _ h
                with h' | ⟨hm, he⟩
              · rcases List.mem_append.mp h' with h'' | h''
                · exact Or.inl h''
                · rw [List.mem_singleton] at h''
                  subst h''
                  exact Or.inr ⟨List.mem_cons_self _ _, hp⟩
              · exact Or.inr ⟨List.mem_cons_of_mem _ hm, he⟩

theorem procLoop_append_ok (ε : Type) (enabled : List Bool) (pin : Nat → Except Unit Bool)
    (clear : Nat → Except (Error ε) IntEventBus1) :
    ∀ (L₁ : List Nat) {L₂ : List Nat} {flags f : Snapshot} {i i' : Nat} {cl cl' : List Nat},
      procLoop ε enabled pin clear L₁ flags i cl = (none, f, i', cl') →
      procLoop ε enabled pin clear (L₁ ++ L₂) flags i cl
        = procLoop ε enabled pin clear L₂ f i' cl'
  | [], L₂, flags, f, i, i', cl, cl', h => by
      simp only [procLoop, Prod.mk.injEq] at h
      obtain ⟨h1, h2, h3⟩ := h.2
      subst h1; subst h2; subst h3
      rfl
  | port :: rest, L₂, flags, f, i, i', cl, cl', h => by
      by_cases hp : enabled.getD port false = false
      · simp only [procLoop, if_pos hp] at h ⊢
        exact procLoop_append_ok ε enabled pin clear rest h
      · simp only [procLoop, if_neg hp] at h ⊢
        cases hpin : pin i with
        | error e =>
          rw [hpin] at h
          simp at h
        | ok b =>
          rw [hpin] at h
          cases b with
          | true => exact procLoop_append_ok ε enabled pin clear rest h
          | false =>
            cases hclear : clear port with
            | error e =>
              rw [hclear] at h
              simp at h
            | ok v =>
              rw [hclear] at h
              exact procLoop_append_ok ε enabled pin clear rest h

theorem procLoop_append_err (ε : Type) (enabled : List Bool) (pin : Nat → Except Unit Bool)
    (clear : Nat → Except (Error ε) IntEventBus1) :
    ∀ (L₁ : List Nat) {L₂ : List Nat} {flags : Snapshot} {i : Nat} {cl : List Nat} {e : Error ε},
      (procLoop ε enabled pin clear L₁ flags i cl).1 = some e →
      procLoop ε enabled pin clear (L₁ ++ L₂) flags i cl
        = procLoop ε enabled pin clear L₁ flags i cl
  | [], L₂, flags, i, cl, e, h => by
      simp only [procLoop] at h
      exact Option.noConfusion h
  | port :: rest, L₂, flags, i, cl, e, h => by
      by_cases hp : enabled.getD port false = false
      · simp only [procLoop, if_pos hp] at h ⊢
        exact procLoop_append_err ε enabled pin clear rest h
      · simp only [procLoop, if_neg hp] at h ⊢
        cases hpin : pin i with
        | error e' => rfl
        | ok b =>
          rw [hpin] at h
          cases b with
          | true => exact procLoop_append_err ε enabled pin clear rest h
          | false =>
            cases hclear : clear port with
            | error e' => rw [hclear] at h
            | ok v =>
              rw [hclear] at h
              exact procLoop_append_err ε enabled pin clear rest h

theorem procLoop_front_success (ε : Type) (enabled : List Bool) (pin : Nat → Except Unit Bool)
    (clear : Nat → Except (Error ε) IntEventBus1) (L₁ L₂ : List Nat) (flags : Snapshot)
    (i : Nat) (cl : List Nat)
    (h : (procLoop ε enabled pin clear (L₁ ++ L₂) flags i cl).1 = none) :
    (procLoop ε enabled pin clear L₁ flags i cl).1 = none := by
  cases hr : (procLoop ε enabled pin clear L₁ flags i cl).1 with
  | none => rfl
  | some e =>
    rw [procLoop_append_err ε enabled pin clear L₁ hr] at h
    rw [hr] at h
    exact Option.noConfusion h

theorem procLoop_pin_count (ε : Type) (enabled : List Bool) (pin : Nat → Except Unit Bool)
    (clear : Nat → Except (Error ε) IntEventBus1) :
    ∀ (L : List Nat) (flags : Snapshot) (i : Nat) (cl : List Nat),
      (procLoop ε enabled pin clear L flags i cl).1 = none →
      (procLoop ε enabled pin clear L flags i cl).2.2.1
        = i + (L.filter fun q => enabled.getD q false).length
  | [], _, _, _, _ => rfl
  | port :: rest, flags, i, cl, h => by
      by_cases hp : enabled.getD port false = false
      · simp only [procLoop, if_pos hp] at h ⊢
        rw [procLoop_pin_count ε enabled pin clear rest flags i cl h, List.filter_cons, hp]
        simp
      · simp only [procLoop, if_neg hp] at h ⊢
        rw [Bool.not_eq_false] at hp
        cases hpin : pin i with
        | error e =>
          rw [hpin] at h
          exact Option.noConfusion h
        | ok b =>
          rw [hpin] at h
          cases b with
          | true =>
            rw [procLoop_pin_count ε enabled pin clear rest flags (i+1) cl h,
              List.filter_cons, hp]
            simp [Nat.add_comm, Nat.add_assoc, Nat.add_left_comm]
          | false =>
            cases hclear : clear port with
            | error e =>
              rw [hclear] at h
              exact Option.noConfusion h
            | ok v =>
              rw [hclear] at h
              rw [procLoop_pin_count ε enabled pin clear rest _ (i+1) _ h,
                List.filter_cons, hp]
              simp [Nat.add_comm, Nat.add_assoc, Nat.add_left_comm]

/-! ## Claims about `process_interrupt` -/

/-- C8: slots of a published snapshot whose index is at or beyond
`num_ports`, or whose port was disabled in the mask read at the start
of the call, are the zero bitset. -/
theorem C8_published_slots_zero (ε : Type) (num_ports : Nat) (enabled : List Bool)
    (pin : Nat → Except Unit Bool) (clear : Nat → Except (Error ε) IntEventBus1)
    (flags : Snapshot) (p : Nat)
    (hpub : (process_interrupt ε num_ports enabled pin clear).published = some flags)
    (hp : num_ports ≤ p ∨ enabled.getD p false = false) :
    flags.getD p IntEventBus1.new_zero = IntEventBus1.new_zero := by
  have hside : p ∉ List.range num_ports ∨ enabled.getD p false = false := by
    rcases hp with hp | hp
    · exact Or.inl fun hm => absurd (List.mem_range.mp hm) (Nat.not_lt.mpr hp)
    · exact Or.inr hp
  have hpres := procLoop_getD_preserved ε enabled pin clear p IntEventBus1.new_zero
    (List.range num_ports) zeroSnapshot 0 [] hside
  rcases hr : procLoop ε enabled pin clear (List.range num_ports) zeroSnapshot 0 []
    with ⟨e?, fl, pi, cl⟩
  rw [hr] at hpres
  cases e? with
  | some e =>
    rw [process_interrupt, hr] at hpub
    exact Option.noConfusion hpub
  | none =>
    rw [process_interrupt, hr] at hpub
    have hfl : fl = flags := Option.some.inj hpub
    subst hfl
    exact hpres.trans (zeroSnapshot_getD p)

theorem C8_published_slots_zero_witness :
    (process_interrupt Unit 1 [true, false] (fun _ => .ok false)
        (fun p => .ok ⟨p + 10⟩)).published = some [⟨10⟩, ⟨0⟩] ∧
    ([⟨10⟩, ⟨0⟩] : Snapshot).getD 1 IntEventBus1.new_zero = IntEventBus1.new_zero := by
  refine ⟨rfl, ?_⟩
  exact C8_published_slots_zero Unit 1 [true, false] (fun _ => .ok false)
    (fun p => .ok ⟨p + 10⟩) [⟨10⟩, ⟨0⟩] 1 rfl (Or.inl (by decide))

/-- C3 counterexample: a call whose very first pin sample fails returns
the hardware-read failure without publishing anything into the event
signal, contradicting "publication happens on every call, including
calls that fail". -/
theorem C3_counterexample :
    (process_interrupt Unit 1 [true, false] (fun _ => .error ()) (fun _ => .ok ⟨0⟩)).result
        = .error (.pd .failed) ∧
    (process_interrupt Unit 1 [true, false] (fun _ => .error ()) (fun _ => .ok ⟨0⟩)).published
        = none :=
  ⟨rfl, rfl⟩

/-- C3 (amended): a call publishes the accumulated snapshot exactly
once if and only if it returns successfully — even when the snapshot is
entirely zero (for instance with every port disabled) — while a call
that fails with a pin-sampling or bus error returns the error without
publishing. -/
theorem C3_publish_iff_success (ε : Type) (num_ports : Nat) (enabled : List Bool)
    (pin : Nat → Except Unit Bool) (clear : Nat → Except (Error ε) IntEventBus1) :
    (∀ flags, (process_interrupt ε num_ports enabled pin clear).result = .ok flags ↔
      (process_interrupt ε num_ports enabled pin clear).published = some flags) ∧
    (∀ e, (process_interrupt ε num_ports enabled pin clear).result = .error e →
      (process_interrupt ε num_ports enabled pin clear).published = none) ∧
    ((∀ p, p < num_ports → enabled.getD p false = false) →
      (process_interrupt ε num_ports enabled pin clear).published = some zeroSnapshot) := by
  rcases hr : procLoop ε enabled pin clear (List.range num_ports) zeroSnapshot 0 []
    with ⟨e?, fl, pi, cl⟩
  refine ⟨?_, ?_, ?_⟩
  · intro flags
    cases e? with
    | some e => rw [process_interrupt, hr]; simp
    | none => rw [process_interrupt, hr]; simp
  · intro e he
    cases e? with
    | some e' => rw [process_interrupt, hr]
    | none => rw [process_interrupt, hr] at he ⊢; simp at he
  · intro hdis
    have hall := procLoop_all_disabled ε enabled pin clear (List.range num_ports)
      zeroSnapshot 0 [] (fun p hm => hdis p (List.mem_range.mp hm))
    rw [hr] at hall
    simp only [Prod.mk.injEq] at hall
    obtain ⟨h1, h2, -, -⟩ := hall
    subst h1
    subst h2
    rw [process_interrupt, hr]

theorem C3_publish_iff_success_witness :
    (process_interrupt Unit 2 [false, false] (fun _ => .ok true) (fun _ => .ok ⟨0⟩)).published
      = some zeroSnapshot ∧
    (process_interrupt Unit 2 [false, false] (fun _ => .ok true) (fun _ => .ok ⟨0⟩)).result
      = .ok zeroSnapshot := by
  have h := C3_publish_iff_success Unit 2 [false, false] (fun _ => .ok true) (fun _ => .ok ⟨0⟩)
  have hpub := h.2.2 (by intro p hp; rcases p with _ | _ | p <;> rfl)
  exact ⟨hpub, (h.1 zeroSnapshot).mpr hpub⟩

/-- The number of `is_high()` samples consumed before the loop reaches
port `p`: one per enabled port below `p`. -/
def pinSamplesBefore (enabled : List Bool) (p : Nat) : Nat :=
  ((List.range p).filter fun q => enabled.getD q false).length

/-- C2: per-port behaviour of the `process_interrupt` loop, for the
mask read once before the loop.  (a) With every port below `num_ports`
disabled, the call succeeds with the all-zero snapshot, zero pin
samples, and no `clear_interrupt` register access.  (b) A disabled
port's slot stays zero and the port is never cleared.  (c) An enabled
port `p < num_ports` has the pin re-sampled at its own iteration
(sample index `pinSamplesBefore enabled p`): a high (not-asserted,
active-low line) sample leaves the slot zero and skips the port, a low
(asserted) sample stores the read-and-cleared cause into the slot. -/
theorem C2_process_interrupt_per_port (ε : Type) (num_ports : Nat) (enabled : List Bool)
    (pin : Nat → Except Unit Bool) (clear : Nat → Except (Error ε) IntEventBus1) :
    ((∀ p, p < num_ports → enabled.getD p false = false) →
      (process_interrupt ε num_ports enabled pin clear).result = .ok zeroSnapshot ∧
      (process_interrupt ε num_ports enabled pin clear).pinReads = 0 ∧
      (process_interrupt ε num_ports enabled pin clear).clearedPorts = []) ∧
    (∀ p flags, enabled.getD p false = false →
      (process_interrupt ε num_ports enabled pin clear).result = .ok flags →
      flags.getD p IntEventBus1.new_zero = IntEventBus1.new_zero ∧
      p ∉ (process_interrupt ε num_ports enabled pin clear).clearedPorts) ∧
    (num_ports ≤ MAX_SUPPORTED_PORTS →
      ∀ p flags, p < num_ports → enabled.getD p false = true →
      (process_interrupt ε num_ports enabled pin clear).result = .ok flags →
      (pin (pinSamplesBefore enabled p) = .ok true →
        flags.getD p IntEventBus1.new_zero = IntEventBus1.new_zero ∧
        p ∉ (process_interrupt ε num_ports enabled pin clear).clearedPorts) ∧
      (∀ v, pin (pinSamplesBefore enabled p) = .ok false → clear p = .ok v →
        flags.getD p IntEventBus1.new_zero = v ∧
        p ∈ (process_interrupt ε num_ports enabled pin clear).clearedPorts)) := by
  refine ⟨?_, ?_, ?_⟩
  · intro hdis
    have hall := procLoop_all_disabled ε enabled pin clear (List.range num_ports)
      zeroSnapshot 0 [] (fun p hm => hdis p (List.mem_range.mp hm))
    rw [process_interrupt, hall]
    exact ⟨rfl, rfl, rfl⟩
  · intro p flags hp hres
    rcases hr : procLoop ε enabled pin clear (List.range num_ports) zeroSnapshot 0 []
      with ⟨e?, fl, pi, cl⟩
    rw [process_interrupt, hr] at hres ⊢
    cases e? with
    | some e => exact absurd hres (by simp)
    | none =>
      simp only [Except.ok.injEq] at hres
      subst hres
      constructor
      · have hpres := procLoop_getD_preserved ε enabled pin clear p IntEventBus1.new_zero
          (List.range num_ports) zeroSnapshot 0 [] (Or.inr hp)
        rw [hr] at hpres
        exact hpres.trans (zeroSnapshot_getD p)
      · intro hmem
        have := procLoop_cleared_subset ε enabled pin clear p (List.range num_ports)
          zeroSnapshot 0 [] (by rw [hr]; exact hmem)
        rcases this with h | ⟨-, he⟩
        · exact absurd h (List.not_mem_nil p)
        · rw [hp] at he
          exact Bool.noConfusion he
  · intro hmax p flags hplt hpen hres
    -- split the port range around p
    have hsplit : List.range num_ports
        = (List.range p ++ [p]) ++ (List.range (num_ports - (p + 1))).map fun x => p + 1 + x := by
      rw [← List.range_succ, ← List.range_add]
      congr 1
      omega
    -- overall run and its success
    rcases hr : procLoop ε enabled pin clear (List.range num_ports) zeroSnapshot 0 []
      with ⟨e?, fl, pi, cl⟩
    rw [process_interrupt, hr] at hres ⊢
    cases e? with
    | some e => exact absurd hres (by simp)
    | none =>
    dsimp only at hres ⊢
    simp only [Except.ok.injEq] at hres
    subst hres
    -- the run over ports below p succeeds
    have hpre1 : (procLoop ε enabled pin clear (List.range p ++ [p]) zeroSnapshot 0 []).1
        = none := by
      apply procLoop_front_success ε enabled pin clear _ _ zeroSnapshot 0 []
      rw [← hsplit, hr]
    have hpre0 : (procLoop ε enabled pin clear (List.range p) zeroSnapshot 0 []).1 = none := by
      apply procLoop_front_success ε enabled pin clear _ [p] zeroSnapshot 0 []
      exact hpre1
    rcases hr0 : procLoop ε enabled pin clear (List.range p) zeroSnapshot 0 []
      with ⟨e0?, fl0, pi0, cl0⟩
    rw [hr0] at hpre0
    simp only at hpre0
    subst hpre0
    -- facts about the state reached just before port p
    have hpi0 : pi0 = pinSamplesBefore enabled p := by
      have := procLoop_pin_count ε enabled pin clear (List.range p) zeroSnapshot 0 []
        (by rw [hr0])
      rw [hr0] at this
      simpa [pinSamplesBefore] using this
    subst hpi0
    have hfl0p : fl0.getD p IntEventBus1.new_zero = IntEventBus1.new_zero := by
      have := procLoop_getD_preserved ε enabled pin clear p IntEventBus1.new_zero
        (List.range p) zeroSnapshot 0 []
        (Or.inl fun hm => absurd (List.mem_range.mp hm) (Nat.lt_irrefl p))
      rw [hr0] at this
      exact this.trans (zeroSnapshot_getD p)
    have hcl0 : p ∉ cl0 := by
      intro hmem
      rcases procLoop_cleared_subset ε enabled pin clear p (List.range p)
        zeroSnapshot 0 [] (by rw [hr0]; exact hmem) with h | ⟨h, -⟩
      · exact List.not_mem_nil p h
      · exact absurd (List.mem_range.mp h) (Nat.lt_irrefl p)
    have hfl0len : fl0.length = MAX_SUPPORTED_PORTS := by
      have := procLoop_flags_length ε enabled pin clear (List.range p) zeroSnapshot 0 []
      rw [hr0] at this
      simpa [zeroSnapshot] using this
    -- glue: the whole run equals the run over the suffix from the reached state
    have hglue1 := @procLoop_append_ok ε enabled pin clear (List.range p)
      ([p] ++ (List.range (num_ports - (p + 1))).map fun x => p + 1 + x)
      zeroSnapshot fl0 0 (pinSamplesBefore enabled p) [] cl0 hr0
    have htail : procLoop ε enabled pin clear
        ([p] ++ (List.range (num_ports - (p + 1))).map fun x => p + 1 + x) fl0
        (pinSamplesBefore enabled p) cl0 = (none, fl, pi, cl) := by
      rw [← hglue1, ← List.append_assoc, ← hsplit, hr]
    have hnot3 : p ∉ (List.range (num_ports - (p + 1))).map fun x => p + 1 + x := by
      intro hm
      rcases List.mem_map.mp hm with ⟨x, -, hx⟩
      omega
    -- now run the single iteration for port p
    rw [List.singleton_append, procLoop, if_neg (by rw [hpen]; simp)] at htail
    constructor
    · intro hpin
      rw [hpin] at htail
      dsimp only at htail
      constructor
      · have := procLoop_getD_preserved ε enabled pin clear p IntEventBus1.new_zero
          ((List.range (num_ports - (p + 1))).map fun x => p + 1 + x) fl0
          (pinSamplesBefore enabled p + 1) cl0 (Or.inl hnot3)
        rw [htail] at this
        exact this.trans hfl0p
      · intro hmem
        rcases procLoop_cleared_subset ε enabled pin clear p
          ((List.range (num_ports - (p + 1))).map fun x => p + 1 + x) fl0
          (pinSamplesBefore enabled p + 1) cl0
          (by rw [htail]; exact hmem) with h | ⟨h, -⟩
        · exact hcl0 h
        · exact hnot3 h
    · intro v hpin hclear
      rw [hpin, hclear] at htail
      dsimp only at htail
      constructor
      · have := procLoop_getD_preserved ε enabled pin clear p IntEventBus1.new_zero
          ((List.range (num_ports - (p + 1))).map fun x => p + 1 + x) (fl0.set p v)
          (pinSamplesBefore enabled p + 1) (cl0 ++ [p]) (Or.inl hnot3)
        rw [htail] at this
        rw [this]
        exact getD_set_self fl0 p v IntEventBus1.new_zero (by omega)
      · have := procLoop_cleared_mono ε enabled pin clear p
          ((List.range (num_ports - (p + 1))).map fun x => p + 1 + x) (fl0.set p v)
          (pinSamplesBefore enabled p + 1) (cl0 ++ [p])
          (List.mem_append_right _ (List.mem_singleton_self p))
        rw [htail] at this
        exact this

theorem C2_process_interrupt_per_port_witness :
    ([⟨10⟩, ⟨0⟩] : Snapshot).getD 0 IntEventBus1.new_zero = ⟨10⟩ ∧
    (0 : Nat) ∈ (process_interrupt Unit 2 [true, true]
        (fun k => if k = 0 then .ok false else .ok true)
        (fun p => .ok ⟨p + 10⟩)).clearedPorts ∧
    ([⟨10⟩, ⟨0⟩] : Snapshot).getD 1 IntEventBus1.new_zero = IntEventBus1.new_zero ∧
    (1 : Nat) ∉ (process_interrupt Unit 2 [true, true]
        (fun k => if k = 0 then .ok false else .ok true)
        (fun p => .ok ⟨p + 10⟩)).clearedPorts := by
  have h := (C2_process_interrupt_per_port Unit 2 [true, true]
    (fun k => if k = 0 then .ok false else .ok true) (fun p => .ok ⟨p + 10⟩)).2.2
    (by decide)
  have h0 := (h 0 [⟨10⟩, ⟨0⟩] (by decide) (by decide) rfl).2 ⟨10⟩ rfl rfl
  have h1 := (h 1 [⟨10⟩, ⟨0⟩] (by decide) (by decide) rfl).1 rfl
  exact ⟨h0.1, h0.2, h1.1, h1.2⟩

/-! ## Claim about the command protocol (`execute_command_no_timeout`) -/

theorem waitObserved_decomp (f : Nat → IntEventBus1 → Bool) :
    ∀ (l : List Snapshot) (s : Snapshot), waitLoop f l = some s →
      ∃ pre, waitObserved f l = pre ++ [s] ∧
        (∀ s' ∈ pre, snapshotMatches f s' = false) ∧ snapshotMatches f s = true
  | [], s, h => Option.noConfusion h
  | s0 :: rest, s, h => by
      by_cases hm : snapshotMatches f s0 = true
      · simp only [waitLoop, if_pos hm, Option.some.injEq] at h
        subst h
        exact ⟨[], by simp [waitObserved, hm],
          fun s' h' => absurd h' (List.not_mem_nil s'), hm⟩
      · rw [Bool.not_eq_true] at hm
        simp [waitLoop, hm] at h
        obtain ⟨pre, hobs, hpre, hs⟩ := waitObserved_decomp f rest s h
        refine ⟨s0 :: pre, ?_, ?_, hs⟩
        · simp [waitObserved, hm, hobs]
        · intro s' hs'
          rcases List.mem_cons.mp hs' with h' | h'
          · subst h'; exact hm
          · exact hpre s' h'

/-- If a list with a distinguished element `a` equals `C ++ B` and `a`
does not occur in `C`, then `C` is a prefix of the part before `a`. -/
theorem prefix_of_append_cons {α : Type} {a : α} :
    ∀ (C : List α) {l₁ l₂ B : List α}, l₁ ++ a :: l₂ = C ++ B → a ∉ C →
      ∃ t, l₁ = C ++ t
  | [], l₁, l₂, B, _, _ => ⟨l₁, rfl⟩
  | c :: C', l₁, l₂, B, h, hnm => by
      cases l₁ with
      | nil =>
        simp only [List.nil_append, List.cons_append, List.cons.injEq] at h
        exact absurd (h.1 ▸ List.mem_cons_self c C') hnm
      | cons x l₁' =>
        simp only [List.cons_append, List.cons.injEq] at h
        obtain ⟨rfl, h2⟩ := h
        obtain ⟨t, ht⟩ := prefix_of_append_cons C' h2 (fun hm => hnm (List.mem_cons_of_mem _ hm))
        exact ⟨t, by rw [List.cons_append, ht]⟩

theorem readCmdResult_not_mem_observes (port : Nat) (l : List Snapshot) :
    Ev.readCmdResult port ∉ l.map Ev.observe := by
  intro h
  rcases List.mem_map.mp h with ⟨x, -, hx⟩
  exact Ev.noConfusion hx

/-- C1: the command protocol of `execute_command_no_timeout` on port
`P`.  (i) The pending snapshot is always discarded first (the wait
resets before waiting), so the run is independent of it.  (ii) In every
run trace, a read-result event only occurs after an observed snapshot
satisfying the completion predicate for `P`.  (iii) When the send
succeeds and the wait finds a satisfying snapshot, the trace is exactly
the three lock-delimited phases — send under the lock, then (lock
released) the reset plus the observed snapshots of which all but the
last fail the predicate, then re-acquiring the lock to read the result —
and the call returns the device's read result.  (iv) The completion
predicate holds of a snapshot only via the slot of `P` itself having the
command-completed bit: events for other ports or other bits never
satisfy the wait. -/
theorem C1_execute_command_protocol (ε : Type) (port : Nat)
    (sendRes : Except (Error ε) Unit) (readRes : Except (Error ε) ReturnValue)
    (pending : Option Snapshot) (stream : List Snapshot) :
    (execute_command_no_timeout ε port sendRes readRes pending stream
      = execute_command_no_timeout ε port sendRes readRes none stream) ∧
    (∀ l₁ l₂, (execute_command_no_timeout ε port sendRes readRes pending stream).1
        = l₁ ++ .readCmdResult port :: l₂ →
      ∃ s, Ev.observe s ∈ l₁ ∧ snapshotMatches (cmdCompletedPred port) s = true) ∧
    (∀ s, sendRes = .ok () →
      wait_interrupt true (cmdCompletedPred port) pending stream = some s →
      ∃ pre, waitObserved (cmdCompletedPred port) stream = pre ++ [s] ∧
        (∀ s' ∈ pre, snapshotMatches (cmdCompletedPred port) s' = false) ∧
        snapshotMatches (cmdCompletedPred port) s = true ∧
        (execute_command_no_timeout ε port sendRes readRes pending stream).1
          = [.lockAcquire, .sendCommand port, .lockRelease, .signalReset]
            ++ (pre ++ [s]).map Ev.observe
            ++ [.lockAcquire, .readCmdResult port, .lockRelease] ∧
        (execute_command_no_timeout ε port sendRes readRes pending stream).2
          = some readRes) ∧
    (∀ s', snapshotMatches (cmdCompletedPred port) s' = true →
      (s'.getD port IntEventBus1.new_zero).cmd_1_completed = true) := by
  refine ⟨rfl, ?_, ?_, ?_⟩
  · intro l₁ l₂ htr
    have hmem : Ev.readCmdResult port ∈ l₁ ++ Ev.readCmdResult port :: l₂ :=
      List.mem_append_right l₁ (List.mem_cons_self _ _)
    rw [← htr] at hmem
    cases sendRes with
    | error e =>
      exfalso
      simp only [execute_command_no_timeout] at hmem
      simp at hmem
    | ok u =>
      cases u
      simp only [execute_command_no_timeout] at htr hmem
      cases hw : wait_interrupt true (cmdCompletedPred port) pending stream with
      | none =>
        exfalso
        rw [hw] at hmem
        dsimp only at hmem
        rcases List.mem_append.mp hmem with h | h
        · simp at h
        · exact readCmdResult_not_mem_observes port _ h
      | some s =>
        rw [hw] at htr
        dsimp only at htr
        have hwl : waitLoop (cmdCompletedPred port) stream = some s := hw
        obtain ⟨pre, hobs, hpre, hs⟩ := waitObserved_decomp (cmdCompletedPred port) stream s hwl
        have hnm : Ev.readCmdResult port
            ∉ ([.lockAcquire, .sendCommand port, .lockRelease, .signalReset] : List Ev)
              ++ (waitObserved (cmdCompletedPred port) stream).map Ev.observe := by
          intro h
          rcases List.mem_append.mp h with h | h
          · simp at h
          · exact readCmdResult_not_mem_observes port _ h
        obtain ⟨t, ht⟩ := prefix_of_append_cons
          (([.lockAcquire, .sendCommand port, .lockRelease, .signalReset] : List Ev)
            ++ (waitObserved (cmdCompletedPred port) stream).map Ev.observe)
          htr.symm hnm
        refine ⟨s, ?_, hs⟩
        rw [ht]
        apply List.mem_append_left
        apply List.mem_append_right
        rw [hobs, List.map_append]
        exact List.mem_append_right _ (by simp)
  · intro s hsend hw
    subst hsend
    obtain ⟨pre, hobs, hpre, hs⟩ := waitObserved_decomp (cmdCompletedPred port) stream s hw
    refine ⟨pre, hobs, hpre, hs, ?_, ?_⟩
    · simp only [execute_command_no_timeout, hw]
      rw [hobs]
    · simp only [execute_command_no_timeout, hw]
  · intro s' hm
    obtain ⟨p, hlt, hf⟩ := (snapshotMatches_iff (cmdCompletedPred port) s').mp hm
    simp only [cmdCompletedPred, Bool.and_eq_true, beq_iff_eq] at hf
    obtain ⟨rfl, hc⟩ := hf
    exact hc

theorem C1_execute_command_protocol_witness :
    execute_command_no_timeout Unit 1 (.ok ()) (.ok ⟨7⟩) (some [⟨1⟩, ⟨1⟩])
        [[⟨0⟩, ⟨0⟩], [⟨0⟩, ⟨1⟩]]
      = execute_command_no_timeout Unit 1 (.ok ()) (.ok ⟨7⟩) none
          [[⟨0⟩, ⟨0⟩], [⟨0⟩, ⟨1⟩]] ∧
    ∃ pre, waitObserved (cmdCompletedPred 1) [[⟨0⟩, ⟨0⟩], [⟨0⟩, ⟨1⟩]]
        = pre ++ [[⟨0⟩, ⟨1⟩]] ∧
      (∀ s' ∈ pre, snapshotMatches (cmdCompletedPred 1) s' = false) ∧
      snapshotMatches (cmdCompletedPred 1) ([⟨0⟩, ⟨1⟩] : Snapshot) = true ∧
      (execute_command_no_timeout Unit 1 (.ok ()) (.ok ⟨7⟩) (some [⟨1⟩, ⟨1⟩])
          [[⟨0⟩, ⟨0⟩], [⟨0⟩, ⟨1⟩]]).1
        = [.lockAcquire, .sendCommand 1, .lockRelease, .signalReset]
          ++ (pre ++ [[⟨0⟩, ⟨1⟩]]).map Ev.observe
          ++ [.lockAcquire, .readCmdResult 1, .lockRelease] ∧
      (execute_command_no_timeout Unit 1 (.ok ()) (.ok ⟨7⟩) (some [⟨1⟩, ⟨1⟩])
          [[⟨0⟩, ⟨0⟩], [⟨0⟩, ⟨1⟩]]).2 = some (.ok ⟨7⟩) := by
  have h := C1_execute_command_protocol Unit 1 (.ok ()) (.ok ⟨7⟩) (some [⟨1⟩, ⟨1⟩])
    [[⟨0⟩, ⟨0⟩], [⟨0⟩, ⟨1⟩]]
  exact ⟨h.1, h.2.2.1 [⟨0⟩, ⟨1⟩] rfl rfl⟩

end Tps6699x
